import Mathlib

/-!
Verification of greasygit (src/greasygit.py), a tool that replays the version
history of a Greasy Fork user script into a git repository.

The Python source is shallowly embedded below.  Pure computations (string
manipulation, command construction) are translated directly.  Effectful
boundaries are made explicit:

* `re.finditer` over the history page is abstracted as the list of its
  match results (`HistoryMatch`); `get_versions` is the generator body of
  `GreasyForkScript.get_versions` over that list.
* The two `re.search` calls of `_load_metadata` are abstracted as oracle
  results (`Option`), `None` standing for the `AttributeError` raised when a
  pattern does not match.
* `git` is modelled by `GitState` (committed tree and index) together with
  the documented semantics of `git commit` that the adapter relies on:
  a commit fails when the index equals the last committed tree and
  `--allow-empty` was not passed, or when the message is empty and
  `--allow-empty-message` was not passed.
* The driver `main` becomes `runMain`, which returns the list of performed
  repository events together with an optional fatal error.
-/

/-- Mirrors `Version = namedtuple("Version", ("number", "tag", "datetime", "message"))`
(line 24).  `message` is `Option` because the regex group is optional. -/
structure Version where
  number : String
  tag : String
  datetime : String
  message : Option String
deriving DecidableEq

/-- One match of `REGEX_HISTORY` (lines 36-45): the four captured groups of a
version list entry, in page order.  The regex engine itself is the abstraction
boundary: a well-formed history page with N entries is one on which
`re.finditer` yields exactly these N match results. -/
structure HistoryMatch where
  number : String
  tag : String
  datetime : String
  message : Option String
deriving DecidableEq

/-- The `Version(...)` constructor call in the loop body of `get_versions`
(lines 77-82). -/
def versionOfMatch (m : HistoryMatch) : Version :=
  ⟨m.number, m.tag, m.datetime, m.message⟩

/-- `GreasyForkScript.get_versions` (lines 61-82): yields one `Version` per
regex match, in match (page) order. -/
def get_versions (ms : List HistoryMatch) : List Version :=
  ms.map versionOfMatch

/-- C1: for a well-formed history page whose HTML contains N version list
entries, `get_versions` yields exactly N `Version` records in the page order
of the entries, and the reversal performed by the driver (line 161) turns a
newest-first page (any chronological key `t` is antitone along the entries)
into the oldest-first order used for replay. -/
theorem get_versions_page_order (ms : List HistoryMatch) (t : String → Nat)
    (hnewest : ms.Pairwise fun a b => t b.datetime ≤ t a.datetime) :
    (get_versions ms).length = ms.length ∧
    (∀ i : Nat, (get_versions ms)[i]? = (ms[i]?).map versionOfMatch) ∧
    ((get_versions ms).reverse).Pairwise
      fun a b => t a.datetime ≤ t b.datetime := by
  refine ⟨List.length_map _ _, fun i => List.getElem?_map .., ?_⟩
  rw [List.pairwise_reverse, get_versions, List.pairwise_map]
  exact hnewest.imp fun h => h

/-- Concrete history-page match results used to instantiate hypotheses: two entries,
newest first for the key `String.length` on the datetime field. -/
def demoMatches : List HistoryMatch :=
  [⟨"2", "1.0", "bb", none⟩, ⟨"1", "0.9", "b", some "x"⟩]

theorem get_versions_page_order_witness :
    (get_versions demoMatches).length = demoMatches.length ∧
    (get_versions demoMatches)[0]? = (demoMatches[0]?).map versionOfMatch ∧
    ((get_versions demoMatches).reverse).Pairwise
      fun a b => (fun s => s.length) a.datetime ≤ (fun s => s.length) b.datetime :=
  ⟨(get_versions_page_order demoMatches (fun s => s.length) (by decide)).1,
   (get_versions_page_order demoMatches (fun s => s.length) (by decide)).2.1 0,
   (get_versions_page_order demoMatches (fun s => s.length) (by decide)).2.2⟩

/-!  Simple-name derivation (`_load_metadata`, line 59):
`unquote(canon_url.split("/")[-1].lstrip(str(self.id) + "-"))`. -/

/-- `canon_url.split("/")[-1]`: the characters after the last slash
(accumulator is reset whenever a slash is seen). -/
def afterLastSlash : List Char → List Char → List Char
  | [], acc => acc.reverse
  | c :: rest, acc =>
    if c = '/' then afterLastSlash rest [] else afterLastSlash rest (c :: acc)

def lastSegment (s : String) : String :=
  String.mk (afterLastSlash s.data [])

/-- Python `str.lstrip(chars)`: removes every leading character that is a
member of the character set `chars` (not the leading occurrence of `chars` as
a substring). -/
def pyLstrip (s chars : String) : String :=
  String.mk (s.data.dropWhile fun c => chars.data.contains c)

def hexVal (c : Char) : Option Nat :=
  if '0' ≤ c ∧ c ≤ '9' then some (c.toNat - '0'.toNat)
  else if 'a' ≤ c ∧ c ≤ 'f' then some (c.toNat - 'a'.toNat + 10)
  else if 'A' ≤ c ∧ c ≤ 'F' then some (c.toNat - 'A'.toNat + 10)
  else none

/-- `urllib.parse.unquote`, modelled at the level of single characters: each
valid `%XX` escape becomes the character with code `XX`; anything else is
copied verbatim.  (Multi-byte UTF-8 escape sequences are out of scope; every
claim uses the same decoding on both sides.) -/
def pyUnquoteAux : List Char → List Char
  | [] => []
  | '%' :: a :: b :: rest =>
    match hexVal a, hexVal b with
    | some x, some y => Char.ofNat (16 * x + y) :: pyUnquoteAux rest
    | _, _ => '%' :: pyUnquoteAux (a :: b :: rest)
  | c :: rest => c :: pyUnquoteAux rest

def pyUnquote (s : String) : String :=
  String.mk (pyUnquoteAux s.data)

/-- Line 59 of greasygit.py:
`self.simple_name = unquote(canon_url.split("/")[-1].lstrip(str(self.id) + "-"))`. -/
def simple_name_of (id : Nat) (canonUrl : String) : String :=
  pyUnquote (pyLstrip (lastSegment canonUrl) (toString id ++ "-"))

/-- `dropExact pre s` removes the exact sequence `pre` from the front of `s`,
or returns `none` when `s` does not start with `pre`. -/
def dropExact : List Char → List Char → Option (List Char)
  | [], s => some s
  | _, [] => none
  | p :: ps, c :: cs => if c = p then dropExact ps cs else none

/-- The simple name as the specification describes it: the slug (last path
segment) with exactly the leading sequence "<id>-" removed, then
percent-decoded. -/
def simple_name_spec (id : Nat) (canonUrl : String) : String :=
  let slug := (lastSegment canonUrl).data
  let pre := (toString id ++ "-").data
  pyUnquote (String.mk ((dropExact pre slug).getD slug))

/-- C4 evidence: on the canonical URL whose slug is "1-1password" for script
id 1, `lstrip(str(id) + "-")` strips the character set containing the digit 1
and the hyphen, so the code produces "password", while removing exactly the
"1-" id prefix (as the specification states) produces "1password". -/
theorem simple_name_lstrip_divergence :
    simple_name_of 1 "https://greasyfork.org/en/scripts/1-1password" = "password" ∧
    simple_name_spec 1 "https://greasyfork.org/en/scripts/1-1password" = "1password" ∧
    simple_name_of 1 "https://greasyfork.org/en/scripts/1-1password" ≠
      simple_name_spec 1 "https://greasyfork.org/en/scripts/1-1password" := by
  decide

/-!  GitRepo.commit: command construction (lines 112-120) and the environment
handling used to override the commit dates. -/

/-- The single-quote character, written by code point to keep string literals
quote-free. -/
def sqc : Char := Char.ofNat 39

/-- A character CPython shlex regards as safe, per `_find_unsafe`:
the regex character class of word characters plus at-sign, percent, plus,
equals, colon, comma, dot, slash and hyphen (ASCII word characters). -/
def shlexSafeChar (c : Char) : Bool :=
  c.isAlphanum || c = '_' || c = '@' || c = '%' || c = '+' || c = '=' ||
    c = ':' || c = ',' || c = '.' || c = '/' || c = '-'

/-- CPython `shlex.quote` as called on line 117 with `message`, which may be
`None`: a falsy argument (None or the empty string) yields two single quotes,
a safe string is returned unchanged, and anything else is wrapped in single
quotes with embedded single quotes escaped. -/
def shlexQuote : Option String → String
  | none => String.mk [sqc, sqc]
  | some s =>
    if s = "" then String.mk [sqc, sqc]
    else if s.data.all shlexSafeChar then s
    else
      String.mk
        ([sqc] ++ (s.data.flatMap fun c =>
          if c = sqc then [sqc, '"', sqc, '"', sqc] else [c]) ++ [sqc])

/-- The command string built by `GitRepo.commit` (lines 117-119):
`git commit -m {shlex.quote(message)} --allow-empty-message`, plus
` --allow-empty` when `allowing_empty` is set. -/
def commitCommand (message : Option String) (allowingEmpty : Bool) : String :=
  "git commit -m " ++ shlexQuote message ++ " --allow-empty-message" ++
    (if allowingEmpty then " --allow-empty" else "")

/-- A process environment: an association list from variable names to
values. -/
abbrev Env := List (String × String)

/-- Update one binding of an association list (first occurrence, else
append), used for both environments and file systems. -/
def setAssoc : List (String × String) → String → String → List (String × String)
  | [], k, v => [(k, v)]
  | (k2, v2) :: rest, k, v =>
    if k2 = k then (k2, v) :: rest else (k2, v2) :: setAssoc rest k v

def lookupAssoc (l : List (String × String)) (k : String) : Option String :=
  (l.find? fun p => p.1 = k).map fun p => p.2

/-- Environment handling of `GitRepo.commit` (lines 113-116): with a
datetime, a copy of `os.environ` is updated with both date overrides and
passed to the subprocess; without one, `envs` stays `None` (the subprocess
inherits the unmodified process environment).  Returns the environment passed
to `subprocess` and the process-wide environment after the call. -/
def commitSpawn (globalEnv : Env) (datetime : Option String) : Option Env × Env :=
  match datetime with
  | none => (none, globalEnv)
  | some dt =>
    let envs := setAssoc (setAssoc globalEnv "GIT_AUTHOR_DATE" dt) "GIT_COMMITTER_DATE" dt
    (some envs, globalEnv)

/-- The environment a spawned subprocess actually sees: the explicit one when
given, otherwise the inherited process environment. -/
def effectiveChildEnv (globalEnv : Env) (passed : Option Env) : Env :=
  passed.getD globalEnv

theorem lookupAssoc_setAssoc_self (l : List (String × String)) (k v : String) :
    lookupAssoc (setAssoc l k v) k = some v := by
  induction l with
  | nil => simp [setAssoc, lookupAssoc]
  | cons p rest ih =>
    by_cases h : p.1 = k
    · simp [setAssoc, lookupAssoc, h]
    · simpa [setAssoc, lookupAssoc, h, List.find?] using ih

theorem lookupAssoc_setAssoc_other (l : List (String × String)) (k k2 v : String)
    (h : k2 ≠ k) : lookupAssoc (setAssoc l k v) k2 = lookupAssoc l k2 := by
  have hne : (k = k2) = False := eq_false fun hh => h hh.symm
  induction l with
  | nil => simp [setAssoc, lookupAssoc, List.find?, hne]
  | cons p rest ih =>
    by_cases hp : p.1 = k
    · have hpk2 : (p.1 = k2) = False := by rw [hp]; exact hne
      simp [setAssoc, lookupAssoc, List.find?, hp, hpk2, hne]
    · by_cases hq : p.1 = k2
      · simp [setAssoc, lookupAssoc, List.find?, hp, hq, hne, h]
      · simpa [setAssoc, lookupAssoc, List.find?, hp, hq, hne, h] using ih

/-- C8: a commit with a supplied timestamp overrides both the author date and
the committer date only in the environment passed to that one subprocess
invocation: the process-wide environment is returned unchanged, and a
subsequent commit without a timestamp passes no explicit environment, so its
subprocess sees exactly the original process environment. -/
theorem commit_env_scoped_per_invocation (env : Env) (dt : String) :
    (commitSpawn env (some dt)).2 = env ∧
    lookupAssoc (effectiveChildEnv env (commitSpawn env (some dt)).1)
      "GIT_AUTHOR_DATE" = some dt ∧
    lookupAssoc (effectiveChildEnv env (commitSpawn env (some dt)).1)
      "GIT_COMMITTER_DATE" = some dt ∧
    (commitSpawn ((commitSpawn env (some dt)).2) none).1 = none ∧
    effectiveChildEnv ((commitSpawn env (some dt)).2)
      (commitSpawn ((commitSpawn env (some dt)).2) none).1 = env := by
  refine ⟨rfl, ?_, ?_, rfl, rfl⟩
  · show lookupAssoc
      (setAssoc (setAssoc env "GIT_AUTHOR_DATE" dt) "GIT_COMMITTER_DATE" dt)
      "GIT_AUTHOR_DATE" = some dt
    rw [lookupAssoc_setAssoc_other _ _ _ _ (by decide)]
    exact lookupAssoc_setAssoc_self env _ dt
  · exact lookupAssoc_setAssoc_self _ _ dt

/-!  The git repository model.  `GitState` carries the tree of the last
commit and the index (staged tree).  `gitCommitExec` is the behaviour of the
`git commit` command line the adapter relies on: it refuses an empty message
unless `--allow-empty-message` is passed, and refuses a commit whose staged
tree equals the previous commit unless `--allow-empty` is passed; otherwise
it commits the staged tree.  `subprocess.check_call` turns a refusal into a
raised error. -/

abbrev FileSystem := List (String × String)

structure GitState where
  committed : FileSystem
  staged : FileSystem
deriving DecidableEq

/-- Repository events performed by shelling out, in order. -/
inductive Event where
  | gitInit (name : String)
  | commit (message : String) (datetime : Option String) (allowEmpty : Bool)
  | tagCreate (name : String)
  | summary (dataCommits : Nat)
deriving DecidableEq

def Event.isCommit : Event → Bool
  | .commit .. => true
  | _ => false

def Event.isDataCommit : Event → Bool
  | .commit _ (some _) _ => true
  | _ => false

/-- The tag names among a trace of events, in order. -/
def tagNamesOf (evs : List Event) : List String :=
  evs.filterMap fun e =>
    match e with
    | .tagCreate n => some n
    | _ => none

def commitCount (evs : List Event) : Nat :=
  (evs.filter Event.isCommit).length

/-- `git commit` semantics for the flags the adapter uses. -/
def gitCommitExec (st : GitState) (message : String) (datetime : Option String)
    (allowEmptyMessage allowEmpty : Bool) : Except String (GitState × Event) :=
  if message = "" ∧ allowEmptyMessage = false then
    .error "empty commit message"
  else if st.staged = st.committed ∧ allowEmpty = false then
    .error "nothing to commit"
  else
    .ok (⟨st.staged, st.staged⟩, .commit message datetime allowEmpty)

/-- `GitRepo.commit` (lines 112-120): the command always carries
`--allow-empty-message`; `shlex.quote` maps a `None` message to two single
quotes, so git receives the empty message. -/
def repoCommit (st : GitState) (message : Option String) (datetime : Option String)
    (allowingEmpty : Bool) : Except String (GitState × Event) :=
  gitCommitExec st (message.getD "") datetime true allowingEmpty

/-- `GitRepo.update_and_add` (lines 105-107): write the file and stage it. -/
def updateAndAdd (st : GitState) (filePath content : String) : GitState :=
  { st with staged := setAssoc st.staged filePath content }

/-- C5: a commit whose parsed change message is absent builds the same
command line as one with an explicit empty message (shlex.quote maps both to
two single quotes), the repository-level commit behaves identically in the
two cases, and it completes (message emptiness never fails a commit because
`--allow-empty-message` is always passed). -/
theorem commit_absent_message_as_empty (st : GitState) (dt : Option String)
    (ae : Bool) (h : st.staged ≠ st.committed ∨ ae = true) :
    (∀ ae2 : Bool, commitCommand none ae2 = commitCommand (some "") ae2) ∧
    repoCommit st none dt ae = repoCommit st (some "") dt ae ∧
    repoCommit st none dt ae = .ok (⟨st.staged, st.staged⟩, .commit "" dt ae) := by
  refine ⟨fun ae2 => rfl, rfl, ?_⟩
  rw [repoCommit]
  show gitCommitExec st "" dt true ae = _
  rw [gitCommitExec]
  rw [if_neg (by simp)]
  rcases h with h | h
  · rw [if_neg (by simp [h])]
  · rw [if_neg (by simp [h])]

theorem commit_absent_message_as_empty_witness :
    let st : GitState := ⟨[], [("a.js", "x")]⟩
    (∀ ae2 : Bool, commitCommand none ae2 = commitCommand (some "") ae2) ∧
    repoCommit st none none false = repoCommit st (some "") none false ∧
    repoCommit st none none false =
      .ok (⟨st.staged, st.staged⟩, .commit "" none false) :=
  commit_absent_message_as_empty ⟨[], [("a.js", "x")]⟩ none false
    (Or.inl (by decide))

/-!  The driver `main` (lines 132-179).  Interactive prompts and HTTP fetches
become parameters; the repository side effects become the event trace. -/

structure Metadata where
  name : String
  description : String
  simple_name : String
deriving DecidableEq

/-- `GreasyForkScript._load_metadata` (lines 53-59).  `metaMatch` is the
result of `re.search(REGEX_METADATA, d)` (groups name, description) and
`canonUrl` the result of the canonical-link search; `none` stands for the
`AttributeError` raised by `.group` on a failed match. -/
def load_metadata (id : Nat) (metaMatch : Option (String × String))
    (canonUrl : Option String) : Option Metadata :=
  match metaMatch, canonUrl with
  | some (n, d), some u => some ⟨n, d, simple_name_of id u⟩
  | _, _ => none

/-- Result of the per-version loop: events in order, final git state, the
Python loop variable `idx` (`none` while never bound), fatal error if any. -/
structure LoopOut where
  events : List Event
  git : GitState
  idx : Option Nat
  err : Option String
deriving DecidableEq

/-- The body of `for idx, version in enumerate(versions):` (lines 165-176):
fetch the code, overwrite and stage the script file, commit with the version
message and datetime (allowing empty commits exactly when
`including_all_versions` is set), then, when tagging, create a tag whenever
the tag differs from `last_tag` and update `last_tag`. -/
def runLoop (getCode : String → String) (sfn : String) (ia tagging : Bool) :
    List Version → Nat → Option String → Option Nat → GitState → LoopOut
  | [], _, _, idx, st => ⟨[], st, idx, none⟩
  | v :: vs, i, lastTag, _, st =>
    match repoCommit (updateAndAdd st sfn (getCode v.number)) v.message
        (some v.datetime) ia with
    | .error e => ⟨[], updateAndAdd st sfn (getCode v.number), some i, some e⟩
    | .ok (st2, ev) =>
      let out := runLoop getCode sfn ia tagging vs (i + 1)
        (if tagging then some v.tag else lastTag) (some i) st2
      ⟨ev :: ((if tagging then
          (if some v.tag ≠ lastTag then [Event.tagCreate v.tag] else [])
        else []) ++ out.events),
        out.git, out.idx, out.err⟩

structure RunResult where
  events : List Event
  error : Option String
deriving DecidableEq

/-- The driver `main` (lines 140-179) after the interactive prompts:
load metadata (abort on parse failure), `git init`, write and commit the
README, replay the page-listed versions oldest-first, then print the summary
using the loop variable `idx`, which raises `NameError` when the loop never
ran. -/
def runMain (metaMatch : Option (String × String)) (canonUrl : Option String)
    (id : Nat) (pageVersions : List Version) (getCode : String → String)
    (ia tagging : Bool) (repoName sfn readme : String) : RunResult :=
  match load_metadata id metaMatch canonUrl with
  | none => ⟨[], some "AttributeError: metadata pattern did not match"⟩
  | some _ =>
    let st1 := updateAndAdd ⟨[], []⟩ "README.md" readme
    match repoCommit st1 (some "Init with greasygit") none false with
    | .error e => ⟨[Event.gitInit repoName], some e⟩
    | .ok (st2, ev0) =>
      let out := runLoop getCode sfn ia tagging pageVersions.reverse 0 none none st2
      match out.err with
      | some e => ⟨Event.gitInit repoName :: ev0 :: out.events, some e⟩
      | none =>
        match out.idx with
        | none =>
          ⟨Event.gitInit repoName :: ev0 :: out.events,
            some "NameError: idx is not bound"⟩
        | some k =>
          ⟨Event.gitInit repoName :: ev0 :: (out.events ++ [Event.summary (k + 1)]),
            none⟩

/-- Modelled from the spec: the version-history page itself omits versions
that introduced no code change unless the all-versions view is requested
(`?show_all_versions=1`); such versions are exactly those whose change
message is absent.  This server-side behaviour is not part of the repository
code (the code only switches the URL suffix, lines 65-68). -/
def listedVersions (allVersions : List Version) (ia : Bool) : List Version :=
  if ia then allVersions else allVersions.filter fun v => v.message.isSome

/-- The example history, in page (newest-first) order: version 3 tagged 1.1
with message "fix bug", version 2 tagged 1.0 with no message (no code
change), version 1 tagged 1.0 with message "init". -/
def exampleHistory : List Version :=
  [⟨"3", "1.1", "t3", some "fix bug"⟩, ⟨"2", "1.0", "t2", none⟩,
   ⟨"1", "1.0", "t1", some "init"⟩]

/-- C2: with include-unchanged disabled the history page lists only versions
1 and 3; the driver replays them into exactly 2 data commits plus the init
commit and creates exactly the two tags 1.0 and 1.1, in that order, with no
error. -/
theorem example_history_two_commits_two_tags :
    (listedVersions exampleHistory false).length = 2 ∧
    (runMain (some ("n", "d")) (some "u") 5 (listedVersions exampleHistory false)
        (fun num => "code " ++ num) false true "repo" "repo.js" "readme").error
      = none ∧
    ((runMain (some ("n", "d")) (some "u") 5 (listedVersions exampleHistory false)
        (fun num => "code " ++ num) false true "repo" "repo.js" "readme").events.filter
      Event.isDataCommit).length = 2 ∧
    ((runMain (some ("n", "d")) (some "u") 5 (listedVersions exampleHistory false)
        (fun num => "code " ++ num) false true "repo" "repo.js" "readme").events.filter
      Event.isCommit).length = 3 ∧
    tagNamesOf (runMain (some ("n", "d")) (some "u") 5
        (listedVersions exampleHistory false) (fun num => "code " ++ num) false true
        "repo" "repo.js" "readme").events = ["1.0", "1.1"] := by
  decide

/-- C7: when the homepage header/description pattern does not match, loading
the metadata fails and the driver aborts before `git init` runs: the event
trace is empty, so no repository (partial or otherwise) is created. -/
theorem malformed_homepage_fails_before_init (canonUrl : Option String)
    (id : Nat) (page : List Version) (getCode : String → String)
    (ia tagging : Bool) (repoName sfn readme : String) :
    (runMain none canonUrl id page getCode ia tagging repoName sfn readme).error.isSome
      = true ∧
    (runMain none canonUrl id page getCode ia tagging repoName sfn readme).events
      = [] := by
  constructor <;> rfl

/-- C10: when the (possibly filtered) version list is empty, the loop never
binds `idx`, so after the successful init commit the final summary statement
fails with a `NameError`; the trace contains the init events and no summary. -/
theorem empty_versions_summary_name_error (n d u : String) (id : Nat)
    (getCode : String → String) (ia tagging : Bool) (rn sfn rd : String) :
    runMain (some (n, d)) (some u) id [] getCode ia tagging rn sfn rd =
      ⟨[Event.gitInit rn, Event.commit "Init with greasygit" none false],
        some "NameError: idx is not bound"⟩ := by
  simp [runMain, load_metadata, repoCommit, gitCommitExec, updateAndAdd, setAssoc,
    runLoop]

/-!  C3: tagging behaviour of the replay loop. -/

/-- The events one replayed version should contribute: its commit, followed
by a tag creation exactly when its tag differs from the previous version's
tag (the first version, with no previous, is always tagged). -/
def expectedBlock (ia : Bool) (prev : Option Version) (v : Version) : List Event :=
  Event.commit (v.message.getD "") (some v.datetime) ia ::
    (if some v.tag ≠ prev.map Version.tag then [Event.tagCreate v.tag] else [])

/-- Concatenation of the expected per-version blocks. -/
def expectedTrace (ia : Bool) : Option Version → List Version → List Event
  | _, [] => []
  | prev, v :: vs => expectedBlock ia prev v ++ expectedTrace ia (some v) vs

theorem repoCommit_ok_event (st st2 : GitState) (m : Option String)
    (dt : Option String) (ae : Bool) (ev : Event)
    (h : repoCommit st m dt ae = .ok (st2, ev)) :
    ev = .commit (m.getD "") dt ae ∧ st2 = ⟨st.staged, st.staged⟩ := by
  rw [repoCommit, gitCommitExec] at h
  split at h
  · cases h
  · split at h
    · cases h
    · cases h
      exact ⟨rfl, rfl⟩

/-- The replay loop with tagging enabled, started with `last_tag` equal to
the tag of the previous version (or `None` before the first iteration),
produces exactly the expected blocks, provided it does not abort. -/
theorem runLoop_expected (getCode : String → String) (sfn : String) (ia : Bool)
    (vs : List Version) : ∀ (prev : Option Version) (i : Nat) (idx : Option Nat)
    (st : GitState),
    (runLoop getCode sfn ia true vs i (prev.map Version.tag) idx st).err = none →
    (runLoop getCode sfn ia true vs i (prev.map Version.tag) idx st).events =
      expectedTrace ia prev vs := by
  induction vs with
  | nil => intro prev i idx st _; rfl
  | cons v vs ih =>
    intro prev i idx st herr
    cases hc : repoCommit (updateAndAdd st sfn (getCode v.number)) v.message
        (some v.datetime) ia with
    | error e =>
      rw [runLoop] at herr
      rw [hc] at herr
      cases herr
    | ok p =>
      obtain ⟨st2, ev⟩ := p
      obtain ⟨hev, -⟩ := repoCommit_ok_event _ _ _ _ _ _ hc
      rw [runLoop] at herr ⊢
      rw [hc] at herr ⊢
      have hrec := ih (some v) (i + 1) (some i) st2 (by simpa using herr)
      simp only [Option.map_some] at hrec  -- align (some v).map Version.tag
      rw [expectedTrace, expectedBlock, hev]
      simpa using hrec

theorem destutterP_head (R : String → String → Prop) [DecidableRel R]
    (l : List String) : ∀ a : String,
    List.destutter' R a l = a :: (List.destutter' R a l).tail := by
  induction l with
  | nil => intro a; rfl
  | cons b l ih =>
    intro a
    rw [List.destutter'_cons]
    split
    · rfl
    · exact ih a

theorem tagNames_expectedBlock (ia : Bool) (prev : Option Version) (v : Version)
    (rest : List Event) :
    tagNamesOf (expectedBlock ia prev v ++ rest) =
      (if some v.tag ≠ prev.map Version.tag then [v.tag] else []) ++
        tagNamesOf rest := by
  rw [expectedBlock]
  split <;> simp [tagNamesOf]

/-- The tags created along the expected trace are exactly the first tag of
each run of consecutive equal tags (destutter by inequality); with a previous
version `p` already processed, they are the run starts relative to `p.tag`. -/
theorem tagNames_expectedTrace (ia : Bool) (vs : List Version) :
    ∀ prev : Option Version,
    tagNamesOf (expectedTrace ia prev vs) =
      (match prev with
       | none => (vs.map Version.tag).destutter (· ≠ ·)
       | some p =>
         (List.destutter' (· ≠ ·) p.tag (vs.map Version.tag)).tail) := by
  induction vs with
  | nil =>
    intro prev
    cases prev <;> simp [expectedTrace, tagNamesOf, List.destutter, List.destutter'_nil]
  | cons v vs ih =>
    intro prev
    rw [expectedTrace, tagNames_expectedBlock]
    rw [ih (some v)]
    cases prev with
    | none =>
      simp only [Option.map_none, ne_eq, reduceCtorEq, not_false_eq_true, if_pos]
      rw [List.map_cons, List.destutter_cons']
      exact (destutterP_head _ _ v.tag).symm
    | some p =>
      simp only [Option.map_some, ne_eq, Option.some.injEq, List.map_cons]
      rw [List.destutter'_cons]
      by_cases hvp : v.tag = p.tag
      · simp [hvp]
      · rw [if_pos (by simpa using hvp), if_pos (by simpa using Ne.symm hvp),
          List.tail_cons, List.singleton_append]
        exact (destutterP_head _ _ v.tag).symm

/-- C3: with tagging enabled and `last_tag` starting at `None`, a completed
replay produces, for each version, its commit immediately followed by a tag
creation exactly when the tag differs from the immediately preceding
version's tag (the first version is always tagged); since `last_tag` always
holds the previous version's tag and runs of equal tags share one value, the
tag-creation calls are exactly the first tag of each run of consecutive
identical tags, each applied right after the commit of the first version of
its run. -/
theorem tag_created_once_per_run (getCode : String → String) (sfn : String)
    (ia : Bool) (vs : List Version) (idx : Option Nat) (st : GitState)
    (herr : (runLoop getCode sfn ia true vs 0 none idx st).err = none) :
    (runLoop getCode sfn ia true vs 0 none idx st).events =
      expectedTrace ia none vs ∧
    tagNamesOf (runLoop getCode sfn ia true vs 0 none idx st).events =
      (vs.map Version.tag).destutter (· ≠ ·) := by
  have h1 : (runLoop getCode sfn ia true vs 0 none idx st).events =
      expectedTrace ia none vs := runLoop_expected getCode sfn ia vs none 0 idx st herr
  refine ⟨h1, ?_⟩
  rw [h1]
  exact tagNames_expectedTrace ia vs none

/-- Three versions oldest-first: a run of two 1.0 tags then one 1.1 tag. -/
def demoVersions : List Version :=
  [⟨"1", "1.0", "t1", some "init"⟩, ⟨"2", "1.0", "t2", none⟩,
   ⟨"3", "1.1", "t3", some "m"⟩]

theorem tag_created_once_per_run_witness :
    (runLoop (fun n => n) "s.js" true true demoVersions 0 none none
      ⟨[], []⟩).events = expectedTrace true none demoVersions ∧
    tagNamesOf (runLoop (fun n => n) "s.js" true true demoVersions 0 none none
      ⟨[], []⟩).events = (demoVersions.map Version.tag).destutter (· ≠ ·) :=
  tag_created_once_per_run (fun n => n) "s.js" true demoVersions none ⟨[], []⟩
    (by decide)

/-!  C6: with include-unchanged enabled every version commits. -/

theorem repoCommit_allow_empty (st : GitState) (m : Option String)
    (dt : Option String) :
    repoCommit st m dt true =
      .ok (⟨st.staged, st.staged⟩, .commit (m.getD "") dt true) := by
  rw [repoCommit, gitCommitExec, if_neg (by simp), if_neg (by simp)]

theorem commitCount_append (l r : List Event) :
    commitCount (l ++ r) = commitCount l + commitCount r := by
  simp [commitCount, List.filter_append]

theorem commitCount_tag_list (tagging : Bool) (c : Prop) [Decidable c]
    (t : String) :
    commitCount
      (if tagging then (if c then [Event.tagCreate t] else []) else []) = 0 := by
  by_cases h1 : tagging <;> by_cases h2 : c <;>
    simp [h1, h2, commitCount, Event.isCommit]

/-- With `--allow-empty` passed on every commit (include-unchanged mode), the
replay loop never fails, performs one commit per version whatever the fetched
code is, and leaves `idx` at the index of the last version. -/
theorem runLoop_all_versions (getCode : String → String) (sfn : String)
    (tagging : Bool) (vs : List Version) : ∀ (i : Nat) (lastTag : Option String)
    (idx : Option Nat) (st : GitState),
    (runLoop getCode sfn true tagging vs i lastTag idx st).err = none ∧
    commitCount (runLoop getCode sfn true tagging vs i lastTag idx st).events
      = vs.length ∧
    (runLoop getCode sfn true tagging vs i lastTag idx st).idx =
      (match vs with
       | [] => idx
       | _ :: tl => some (i + tl.length)) := by
  induction vs with
  | nil => exact fun i lastTag idx st => ⟨rfl, rfl, rfl⟩
  | cons v tl ih =>
    intro i lastTag idx st
    have hstep := repoCommit_allow_empty (updateAndAdd st sfn (getCode v.number))
      v.message (some v.datetime)
    obtain ⟨h1, h2, h3⟩ := ih (i + 1) (if tagging then some v.tag else lastTag)
      (some i) ⟨(updateAndAdd st sfn (getCode v.number)).staged,
        (updateAndAdd st sfn (getCode v.number)).staged⟩
    refine ⟨?_, ?_, ?_⟩
    · simpa only [runLoop, hstep] using h1
    · simp only [runLoop, hstep]
      have hc : ∀ l : List Event,
          Event.commit (v.message.getD "") (some v.datetime) true :: l =
            [Event.commit (v.message.getD "") (some v.datetime) true] ++ l :=
        fun l => rfl
      rw [hc, commitCount_append, commitCount_append, commitCount_tag_list, h2]
      simp [commitCount, Event.isCommit]
      omega
    · simp only [runLoop, hstep]
      rw [h3]
      cases tl
      all_goals simp
      all_goals omega

theorem commitCount_cons (e : Event) (l : List Event) :
    commitCount (e :: l) = (if e.isCommit then 1 else 0) + commitCount l := by
  by_cases h : e.isCommit <;> simp [commitCount, List.filter_cons, h, Nat.add_comm]

/-- C6: with include-unchanged enabled every listed version produces a commit
(`--allow-empty` is passed on each), whatever code the per-version endpoint
returns — in particular when it equals the previously committed content — so
the run succeeds and the commit count is the number of versions plus one for
the init commit. -/
theorem include_unchanged_every_version_commits (n d u : String) (id : Nat)
    (page : List Version) (getCode : String → String) (tagging : Bool)
    (rn sfn rd : String) (hpage : page ≠ []) :
    (runMain (some (n, d)) (some u) id page getCode true tagging rn sfn rd).error
      = none ∧
    commitCount (runMain (some (n, d)) (some u) id page getCode true tagging
      rn sfn rd).events = page.length + 1 := by
  have hinit : repoCommit (updateAndAdd ⟨[], []⟩ "README.md" rd)
      (some "Init with greasygit") none false =
      .ok (⟨(updateAndAdd ⟨[], []⟩ "README.md" rd).staged,
            (updateAndAdd ⟨[], []⟩ "README.md" rd).staged⟩,
        .commit "Init with greasygit" none false) := by
    rw [repoCommit, gitCommitExec]
    rw [if_neg (by simp)]
    rw [if_neg (by simp [updateAndAdd, setAssoc])]
    rfl
  obtain ⟨h1, h2, h3⟩ := runLoop_all_versions getCode sfn tagging page.reverse 0
    none none ⟨(updateAndAdd ⟨[], []⟩ "README.md" rd).staged,
      (updateAndAdd ⟨[], []⟩ "README.md" rd).staged⟩
  cases hrev : page.reverse with
  | nil =>
    exact absurd (by simpa using congrArg List.reverse hrev) hpage
  | cons v tl =>
    rw [hrev] at h1 h2 h3
    have hlen : page.length = tl.length + 1 := by
      simpa [Nat.add_comm] using congrArg List.length hrev
    constructor
    · simp only [runMain, load_metadata, hinit, hrev, h1, h3]
    · simp only [runMain, load_metadata, hinit, hrev, h1, h3]
      rw [hlen, commitCount_cons, commitCount_cons, commitCount_append, h2]
      simp [commitCount, Event.isCommit]
      omega

theorem include_unchanged_every_version_commits_witness :
    (runMain (some ("n", "d")) (some "u") 5 demoVersions (fun x => x) true true
      "r" "r.js" "rd").error = none ∧
    commitCount (runMain (some ("n", "d")) (some "u") 5 demoVersions (fun x => x)
      true true "r" "r.js" "rd").events = demoVersions.length + 1 :=
  include_unchanged_every_version_commits "n" "d" "u" 5 demoVersions (fun x => x)
    true "r" "r.js" "rd" (by decide)
